import Mathlib

/-!
# Agency consensus core: the agent

A shallow embedding of `arangod/Agency/Agent.cpp`.  Every member function of
`Agent` that touches the commit index, the confirmation vector, the log or one
of the two stores is a function from an agent value to the agent value after
the call (together with the call's result).

The classes `State` (the replicated log), `Store` (the key/value tree) and
`Constituent` (the election machine) are used by `Agent.cpp` but declared
elsewhere; they are modelled from the specification, each under a doc comment
that says so.

The decision table of `checkBlackAndWhiteList` in
`lib/ApplicationFeatures/V8SecurityFeature.cpp` is embedded next to it.
-/

set_option autoImplicit false

namespace arangodb.consensus

/-! ## Types of `AgencyCommon.h` used by the agent -/

/-- Width of `index_t` and `term_t` (`uint64_t`). -/
def UINT64 : Nat := 2 ^ 64

/-- Payload of a log entry or of one write of a batch.  Payloads are opaque to
the agent, which only moves them between the log and the stores; a payload is
identified here by a number. -/
abbrev Payload := Nat

/-- Modelled from the spec: the declaration of `log_t` is missing.  A log entry
is `(index, term, payload)`; the leader id is the fourth constructor argument
the agent passes on every append. -/
structure log_t where
  index : Nat
  term : Nat
  leaderId : Nat
  entry : Payload
deriving DecidableEq, Repr

/-- Modelled from the spec: the declaration of `config_t` is missing.  The
configuration enumerates `id`, the ordered endpoints and the cluster size
`N`, which `Agent::size()` returns. -/
structure config_t where
  id : Nat
  end_points : List String
  size : Nat
deriving DecidableEq, Repr

/-- Body of an append-entries call as the agent inspects it: either a VelocyPack
array of `{"index": i, "query": payload}` objects or a value of another type. -/
inductive Slice where
  | array (entries : List (Nat × Payload))
  | other
deriving DecidableEq, Repr

/-- The one exception thrown in `Agent.cpp`. -/
inductive AgentError where
  | LOWER_TERM_APPEND_ENTRIES_RPC
deriving DecidableEq, Repr

/-- Outcome of a call that either returns a value or throws. -/
inductive Outcome (α : Type) where
  | returned (value : α)
  | thrown (e : AgentError)
deriving DecidableEq, Repr

/-- Modelled from the spec: the declaration of `write_ret_t` is missing.  A
write result is `(accepted, leaderId, perEntryApplied, perEntryIndex)`; the
two-argument redirect leaves both vectors empty. -/
structure write_ret_t where
  accepted : Bool
  redirect : Nat
  applied : List Bool
  indices : List Nat
deriving DecidableEq, Repr

/-- Condition-variable calls made by the agent, and the shutdown requests it
passes on to its parts, in the order they are made. -/
inductive Signal where
  | rest_cv_broadcast
  | cv_signal
  | cv_broadcast
  | constituent_beginShutdown
  | spearhead_beginShutdown
  | read_db_beginShutdown
deriving DecidableEq, Repr

/-- Modelled from the spec: the declaration of `read_ret_t` is missing.  A read
result is `(accepted, leaderId, success flags, results)`; the two-argument
redirect has no flags and no result builder. -/
structure read_ret_t where
  accepted : Bool
  redirect : Nat
  success : List Bool
  result : Option (List Payload)
deriving DecidableEq, Repr

/-- Modelled from the spec: class `Constituent` is missing.  The agent uses only
what the constituent exposes: `term()`, `leaderID()` and `leading()`. -/
structure Constituent where
  term : Nat
  leaderID : Nat
  leading : Bool
deriving DecidableEq, Repr

/-- Modelled from the spec: `Constituent::update(t, id)` is missing.  The
constituent starts as a follower at the term it is given, with the given
leader id. -/
def Constituent.update (_c : Constituent) (t id : Nat) : Constituent :=
  { term := t, leaderID := id, leading := false }

/-! ## Store -/

/-- Modelled from the spec: class `Store` is missing.  `apply` is deterministic
given identical input sequences, so the content of a store is a function of
the sequence of payloads handed to `apply` since construction; the store is
represented by that sequence. -/
structure Store where
  trace : List Payload
deriving DecidableEq, Repr

/-- Modelled from the spec: `Store::apply(batch)` is missing.  It applies the
payloads in order and returns a parallel sequence of booleans telling whether
each payload's precondition held.  `holds t p` is the store's verdict on
payload `p` after the payloads `t`. -/
def Store.apply (holds : List Payload → Payload → Bool) (s : Store) :
    List Payload → Store × List Bool
  | [] => (s, [])
  | p :: ps =>
    let r := Store.apply holds { trace := s.trace ++ [p] } ps
    (r.1, holds s.trace p :: r.2)

/-- Modelled from the spec: `Store::read(query, outBuilder)` is missing.  It
evaluates a read query, writes the results into the builder and returns the
per-sub-query success flags.  `answer t q` is what a store that has been handed
the payloads `t` answers to the query `q`: the flags and the builder's
content. -/
def Store.read (answer : List Payload → List Payload → List Bool × List Payload)
    (s : Store) (query : List Payload) : List Bool × List Payload :=
  answer s.trace query

/-! ## State: the replicated log -/

/-- Modelled from the spec: class `State` is missing.  The log is an ordered
sequence of entries whose indices start at 1; index 0 denotes "no entry". -/
structure State where
  _log : List log_t
deriving DecidableEq, Repr

/-- Modelled from the spec: `State::lastLog()` is missing.  The index of the
"last entry" probe, 0 for the empty log. -/
def State.lastIndex (st : State) : Nat :=
  match st._log.getLast? with
  | some e => e.index
  | none => 0

/-- Modelled from the spec: `State::slices(from, to)` is missing.  The payloads
of the entries with `from <= index <= to`, in log order; `to = none` means
"through end". -/
def State.slices (st : State) (start : Nat) (stop : Option Nat) : List Payload :=
  (st._log.filter (fun e =>
      decide (start ≤ e.index) &&
        (match stop with
         | some t => decide (e.index ≤ t)
         | none => true))).map (fun e => e.entry)

/-- The entries appended by the leader for a batch: one per payload, a failed
payload included, with consecutive indices from `next`. -/
def State.fresh (term id : Nat) : Nat → List Payload → List log_t
  | _, [] => []
  | next, p :: ps =>
    { index := next, term := term, leaderId := id, entry := p } ::
      State.fresh term id (next + 1) ps

/-- Modelled from the spec: the leader-side `State::log(query, applied, term,
id)` is missing.  It appends the batch to the log with new indices and returns
the index assigned to each payload; a failed payload is still assigned a log
index. -/
def State.log (st : State) (query : List Payload) (_applied : List Bool)
    (term id : Nat) : State × List Nat :=
  let es := State.fresh term id (st.lastIndex + 1) query
  ({ _log := st._log ++ es }, es.map (fun e => e.index))

/-- Modelled from the spec: the follower-side `State::log(queries, term,
leaderId, prevIndex, prevTerm)` is missing.  If the local log has no entry at
`prevIndex` with term `prevTerm` the call rejects and leaves the log alone;
`prevIndex = 0` denotes "no entry" and always matches.  Otherwise the
conflicting suffix is truncated and the new entries are appended.  A local
entry above `prevIndex` conflicts when the call carries an entry of the same
index and the local entry is of another term than the call; the log is cut
from the first such entry on, so a call that conflicts with nothing, a
heartbeat among them, cuts nothing.  New entries whose index the log still
holds after the cut are already there and are not appended again. -/
def State.logEntries (st : State) (entries : List (Nat × Payload))
    (term leaderId prevIndex prevTerm : Nat) : State × Bool :=
  if prevIndex = 0 ∨ st._log.any (fun e => e.index == prevIndex && e.term == prevTerm) then
    let kept := st._log.takeWhile (fun e =>
      !(decide (prevIndex < e.index) && e.term != term &&
        entries.any (fun q => q.1 == e.index)))
    ({ _log := kept ++
        (entries.filter (fun q => !kept.any (fun e => e.index == q.1))).map (fun q =>
          { index := q.1, term := term, leaderId := leaderId, entry := q.2 }) }, true)
  else
    (st, false)

/-- The members of `Agent` read or written by the functions below, and
`signals`, the condition-variable calls made so far.  `stopping` is
`Thread::isStopping()`. -/
structure Agent where
  _config : config_t
  _constituent : Constituent
  _state : State
  _spearhead : Store
  _read_db : Store
  _confirmed : List Nat
  _last_commit_index : Nat
  stopping : Bool
  signals : List Signal
deriving DecidableEq, Repr

/-- Source: `Agent::Agent(config_t const&)`.  The commit index starts at 0 and
the confirmation vector is resized to the agency's size and reset to 0.  The
log and both stores start empty and the constituent is a follower at term
0. -/
def Agent.mk_from (config : config_t) : Agent :=
  { _config := config
    _constituent := { term := 0, leaderID := 0, leading := false }
    _state := { _log := [] }
    _spearhead := { trace := [] }
    _read_db := { trace := [] }
    _confirmed := List.replicate config.size 0
    _last_commit_index := 0
    stopping := false
    signals := [] }

/-- Source: `Agent::id`. -/
def Agent.id (a : Agent) : Nat := a._config.id

/-- Source: `Agent::term`. -/
def Agent.term (a : Agent) : Nat := a._constituent.term

/-- Source: `Agent::size`. -/
def Agent.size (a : Agent) : Nat := a._config.size

/-- Source: `Agent::leaderID`. -/
def Agent.leaderID (a : Agent) : Nat := a._constituent.leaderID

/-- Source: `Agent::leading`. -/
def Agent.leading (a : Agent) : Bool := a._constituent.leading

/-- The loop of `Agent::reportIn` that counts the peers `i < size()` with
`_confirmed[i] >= index`. -/
def Agent.countConfirmed (a : Agent) (index : Nat) : Nat :=
  (List.range a.size).foldl
    (fun n i => n + (if a._confirmed.getD i 0 ≥ index then 1 else 0)) 0

/-- Source: `Agent::reportIn`.  `_last_commit_index + 1` is computed in
`index_t`.  A subscript outside `_confirmed` is undefined in the source; here
such a read gives 0 and such a write is dropped. -/
def Agent.reportIn (holds : List Payload → Payload → Bool) (a : Agent)
    (id index : Nat) : Agent :=
  let a1 : Agent :=
    if index > a._confirmed.getD id 0 then
      { a with _confirmed := a._confirmed.set id index }
    else a
  let a2 : Agent :=
    if index > a1._last_commit_index then
      if a1.countConfirmed index > a1.size / 2 then
        { a1 with
          _read_db := (a1._read_db.apply holds
            (a1._state.slices ((a1._last_commit_index + 1) % UINT64) (some index))).1
          _last_commit_index := index }
      else a1
    else a1
  { a2 with signals := a2.signals ++ [Signal.rest_cv_broadcast] }

/-- Source: `Agent::recvAppendEntriesRPC`.  A body that is not an array returns
false at once.  Otherwise the commit index is assigned `leaderCommitIndex`,
then the term is checked, then the entries go to the log; the log's own verdict
is not looked at and the call returns true. -/
def Agent.recvAppendEntriesRPC (a : Agent)
    (term leaderId prevIndex prevTerm leaderCommitIndex : Nat) (queries : Slice) :
    Agent × Outcome Bool :=
  match queries with
  | Slice.other => (a, Outcome.returned false)
  | Slice.array entries =>
    let a1 : Agent := { a with _last_commit_index := leaderCommitIndex }
    if a1.term > term then
      (a1, Outcome.thrown AgentError.LOWER_TERM_APPEND_ENTRIES_RPC)
    else
      ({ a1 with
          _state := (a1._state.logEntries entries term leaderId prevIndex prevTerm).1 },
        Outcome.returned true)

/-- Source: `Agent::load`.  `persisted` is what `State::loadCollections` finds:
the durable log, or nothing when loading fails (the agent warns and goes on).
Both stores are then fed from the log and the constituent is started. -/
def Agent.load (holds : List Payload → Payload → Bool) (a : Agent)
    (persisted : Option (List log_t)) : Agent × Bool :=
  let st : State :=
    match persisted with
    | some l => { _log := l }
    | none => a._state
  let rd := (a._read_db.apply holds (st.slices 0 none)).1
  let sp := (a._spearhead.apply holds
    (st.slices ((a._last_commit_index + 1) % UINT64) none)).1
  ({ a with
      _state := st
      _read_db := rd
      _spearhead := sp
      _constituent := a._constituent.update 0 0 }, true)

/-- The loop of `Agent::write` that confirms the leader itself: for each
position `i` of the batch in turn, if `applied[i]` then `_confirmed[id()]` is
assigned `indices[i]`. -/
def Agent.confirmSelf (id : Nat) (applied : List Bool) (indices : List Nat)
    (confirmed : List Nat) : List Nat :=
  (List.range applied.length).foldl
    (fun c i => if applied.getD i false then c.set id (indices.getD i 0) else c)
    confirmed

/-- Source: `Agent::write`. -/
def Agent.write (holds : List Payload → Payload → Bool) (a : Agent)
    (query : List Payload) : Agent × write_ret_t :=
  if a._constituent.leading then
    let r := a._spearhead.apply holds query
    let l := a._state.log query r.2 a.term a.id
    ({ a with
        _spearhead := r.1
        _state := l.1
        _confirmed := Agent.confirmSelf a.id r.2 l.2 a._confirmed
        signals := a.signals ++ [Signal.cv_signal] },
      { accepted := true, redirect := a.id, applied := r.2, indices := l.2 })
  else
    (a, { accepted := false, redirect := a._constituent.leaderID,
          applied := [], indices := [] })

/-- Source: `Agent::rebuildDBs`. -/
def Agent.rebuildDBs (holds : List Payload → Payload → Bool) (a : Agent) :
    Agent × Bool :=
  ({ a with
      _spearhead := (a._spearhead.apply holds (a._state.slices 0 none)).1
      _read_db := (a._read_db.apply holds (a._state.slices 0 none)).1 }, true)

/-- Source: `Agent::lead`. -/
def Agent.lead (holds : List Payload → Payload → Bool) (a : Agent) : Agent × Bool :=
  let a1 := (a.rebuildDBs holds).1
  ({ a1 with signals := a1.signals ++ [Signal.cv_signal] }, true)

/-- Source: `Agent::read`.  The function is `const`; the agent is returned as it
was. -/
def Agent.read (answer : List Payload → List Payload → List Bool × List Payload)
    (a : Agent) (query : List Payload) : Agent × read_ret_t :=
  if a._constituent.leading then
    let r :=
      if a._config.size = 1 then a._spearhead.read answer query
      else a._read_db.read answer query
    (a, { accepted := true, redirect := a._constituent.leaderID,
          success := r.1, result := some r.2 })
  else
    (a, { accepted := false, redirect := a._constituent.leaderID,
          success := [], result := none })

/-- Source: `Agent::beginShutdown`.  `Thread::beginShutdown` makes
`isStopping()` true; the constituent and both stores are told to shut down;
`_cv` is broadcast. -/
def Agent.beginShutdown (a : Agent) : Agent :=
  { a with
    stopping := true
    signals := a.signals ++
      [Signal.constituent_beginShutdown, Signal.spearhead_beginShutdown,
       Signal.read_db_beginShutdown, Signal.cv_broadcast] }

/-! ## waitFor -/

/-- What a thread blocked in `Agent::waitFor` finds when `_rest_cv.wait()`
returns: `isStopping()`, the time elapsed since `start` (signed: the system
clock may be set back) and `_last_commit_index`. -/
structure Wakeup where
  stopping : Bool
  elapsed : Int
  commitIndex : Nat
deriving DecidableEq, Repr

/-- The `while (true)` loop of `Agent::waitFor`, one wake-up per iteration.
`none` means the thread is still blocked in `_rest_cv.wait()` after the
wake-ups given. -/
def Agent.waitForLoop (index : Nat) (timeout : Int) : List Wakeup → Option Bool
  | [] => none
  | w :: ws =>
    if w.stopping then some false
    else if w.elapsed > timeout then some false
    else if w.commitIndex ≥ index then some true
    else Agent.waitForLoop index timeout ws

/-- Source: `Agent::waitFor`.  A single host agency returns true before it
waits. -/
def Agent.waitFor (a : Agent) (index : Nat) (timeout : Int)
    (wakeups : List Wakeup) : Option Bool :=
  if a.size = 1 then some true
  else Agent.waitForLoop index timeout wakeups

/-- The value of `_last_commit_index` at the wake-up in which the loop of
`Agent::waitFor` returns. -/
def Agent.commitAtLoopExit (index : Nat) (timeout : Int) : List Wakeup → Option Nat
  | [] => none
  | w :: ws =>
    if w.stopping then some w.commitIndex
    else if w.elapsed > timeout then some w.commitIndex
    else if w.commitIndex ≥ index then some w.commitIndex
    else Agent.commitAtLoopExit index timeout ws

/-- The value of `_last_commit_index` at the moment `Agent::waitFor` returns:
the agent's own value when the call returns without waiting, the value found
at the last wake-up otherwise. -/
def Agent.commitAtReturn (a : Agent) (index : Nat) (timeout : Int)
    (wakeups : List Wakeup) : Option Nat :=
  if a.size = 1 then some a._last_commit_index
  else Agent.commitAtLoopExit index timeout wakeups

/-- A wake-up at which the loop of `Agent::waitFor` goes back to waiting. -/
def Wakeup.keepsWaiting (index : Nat) (timeout : Int) (w : Wakeup) : Prop :=
  w.stopping = false ∧ w.elapsed ≤ timeout ∧ w.commitIndex < index

instance (index : Nat) (timeout : Int) (w : Wakeup) :
    Decidable (w.keepsWaiting index timeout) := by
  unfold Wakeup.keepsWaiting
  exact inferInstance

/-- The value the loop of `Agent::waitFor` returns at a wake-up that ends it:
shutdown first, then the deadline, then the commit index. -/
def Wakeup.verdict (timeout : Int) (w : Wakeup) : Bool :=
  if w.stopping then false
  else if w.elapsed > timeout then false
  else true

/-! ## Observations used in the statements -/

/-- Term of the log entry with index `k`, if the log has one. -/
def State.termAt (st : State) (k : Nat) : Option Nat :=
  (st._log.find? (fun e => e.index == k)).map (fun e => e.term)

/-- The indices of a log are contiguous from 1, without gaps, in log order. -/
def State.contiguous (st : State) : Prop :=
  st._log.map (fun e => e.index) = List.range' 1 st._log.length

instance (st : State) : Decidable st.contiguous := by
  unfold State.contiguous
  exact inferInstance

/-- The number of peers `i < N` whose confirmed index is at least `index`. -/
def quorumCount (N : Nat) (confirmed : List Nat) (index : Nat) : Nat :=
  ((List.range N).filter (fun i => decide (confirmed.getD i 0 ≥ index))).length

/-- The index a write assigned to the last payload of the batch whose applied
flag is true, if there is one. -/
def lastAppliedIndex (applied : List Bool) (indices : List Nat) : Option Nat :=
  (((applied.zip indices).filter (fun p => p.1)).map (fun p => p.2)).getLast?

/-- The read-DB invariant: the log is contiguous from 1, the commit index does
not exceed the log's last index, and the payloads handed to the read DB are
exactly those of the log range `1 .. commitIndex`, in log order. -/
def Agent.readDbInv (a : Agent) : Prop :=
  a._state.contiguous ∧
  a._last_commit_index ≤ a._state.lastIndex ∧
  a._read_db.trace = a._state.slices 1 (some a._last_commit_index)

instance (a : Agent) : Decidable a.readDbInv := by
  unfold Agent.readDbInv
  exact inferInstance

/-- States of the first lead: reachable from a freshly constructed agent
through `load` and gains of the lead while the log is still empty, changes of
the constituent that are not a gain of the lead, `write`, and `reportIn` calls
that report an `index_t` value the log holds.  A gain of the lead runs
`Agent::lead`, and with it `rebuildDBs`; the other changes of the constituent
happen outside the agent. -/
inductive LeaderPath (holds : List Payload → Payload → Bool) : Agent → Prop where
  | fresh (config : config_t) : LeaderPath holds (Agent.mk_from config)
  | load (a : Agent) (persisted : Option (List log_t)) :
      LeaderPath holds a → a._state._log = [] →
      (persisted = none ∨ persisted = some []) →
      LeaderPath holds (a.load holds persisted).1
  | gain (a : Agent) (c : Constituent) :
      LeaderPath holds a → c.leading = true → a._state._log = [] →
      LeaderPath holds ({ a with _constituent := c }.lead holds).1
  | change (a : Agent) (c : Constituent) :
      LeaderPath holds a → (c.leading = true → a._constituent.leading = true) →
      LeaderPath holds { a with _constituent := c }
  | write (a : Agent) (query : List Payload) :
      LeaderPath holds a → LeaderPath holds (a.write holds query).1
  | reportIn (a : Agent) (id index : Nat) :
      LeaderPath holds a → index ≤ a._state.lastIndex → index < UINT64 →
      LeaderPath holds (a.reportIn holds id index)

/-- The quorum invariant: the log is contiguous from 1, the leader's own
confirmed index does not exceed the log's last index, and in an agency of at
least one peer strictly more than `N/2` peers have confirmed the commit
index. -/
def Agent.quorumInv (a : Agent) : Prop :=
  a._state.contiguous ∧
  a._confirmed.getD a.id 0 ≤ a._state.lastIndex ∧
  (1 ≤ a.size →
    quorumCount a.size a._confirmed a._last_commit_index > a.size / 2)

/-- One step of the leader path of the quorum invariant: a change of the
constituent, an accepted write, or `reportIn(id, index)` with `id < N` that
comes from another peer or reports an index the log holds. -/
inductive QuorumStep (holds : List Payload → Payload → Bool) : Agent → Agent → Prop where
  | elect (a : Agent) (c : Constituent) : QuorumStep holds a { a with _constituent := c }
  | write (a : Agent) (query : List Payload) :
      a.leading = true → QuorumStep holds a (a.write holds query).1
  | reportIn (a : Agent) (id index : Nat) :
      id < a.size → (id ≠ a.id ∨ index ≤ a._state.lastIndex) →
      QuorumStep holds a (a.reportIn holds id index)

/-- States reached from the freshly constructed agent of a configuration by
steps of the leader path. -/
inductive QuorumPath (holds : List Payload → Payload → Bool) (config : config_t) :
    Agent → Prop where
  | init : QuorumPath holds config (Agent.mk_from config)
  | step (a b : Agent) :
      QuorumPath holds config a → QuorumStep holds a b → QuorumPath holds config b

/-! ## Concrete agents -/

/-- A store verdict under which every precondition holds. -/
def allHold : List Payload → Payload → Bool := fun _ _ => true

/-- A store verdict under which exactly the payload 0 fails its precondition. -/
def zeroFails : List Payload → Payload → Bool := fun _ p => p != 0

/-- Configuration of peer 0 in a three-node agency. -/
def cfg3 : config_t := { id := 0, end_points := ["a", "b", "c"], size := 3 }

/-- Configuration of a single host agency. -/
def cfg1 : config_t := { id := 0, end_points := ["a"], size := 1 }

/-- Five log entries, indices 1 to 5: four of term 1 and the last of term 2. -/
def log5 : List log_t :=
  [ { index := 1, term := 1, leaderId := 0, entry := 11 },
    { index := 2, term := 1, leaderId := 0, entry := 12 },
    { index := 3, term := 1, leaderId := 0, entry := 13 },
    { index := 4, term := 1, leaderId := 0, entry := 14 },
    { index := 5, term := 2, leaderId := 0, entry := 15 } ]

/-- Scenario 2: three nodes, peer 0 leads at term 2, has written index 5 and
confirmed it for itself; the commit index is 4. -/
def scenario2 : Agent :=
  { _config := cfg3
    _constituent := { term := 2, leaderID := 0, leading := true }
    _state := { _log := log5 }
    _spearhead := { trace := [11, 12, 13, 14, 15] }
    _read_db := { trace := [11, 12, 13, 14] }
    _confirmed := [5, 4, 4]
    _last_commit_index := 4
    stopping := false
    signals := [] }

/-- A leader at term 3 whose log ends with an entry of term 1 at index 4, still
uncommitted and confirmed by the leader alone. -/
def oldTermLeader : Agent :=
  { _config := cfg3
    _constituent := { term := 3, leaderID := 0, leading := true }
    _state := { _log := log5.take 4 }
    _spearhead := { trace := [11, 12, 13, 14] }
    _read_db := { trace := [11, 12, 13] }
    _confirmed := [4, 3, 3]
    _last_commit_index := 3
    stopping := false
    signals := [] }

/-- A follower at term 2 that holds `log5` and has commit index 5. -/
def follower5 : Agent :=
  { _config := { id := 1, end_points := ["a", "b", "c"], size := 3 }
    _constituent := { term := 2, leaderID := 0, leading := false }
    _state := { _log := log5 }
    _spearhead := { trace := [] }
    _read_db := { trace := [] }
    _confirmed := [0, 0, 0]
    _last_commit_index := 5
    stopping := false
    signals := [] }

/-- A freshly constructed agent of the three-node agency that has been elected
leader at term 1. -/
def leader3 : Agent :=
  { Agent.mk_from cfg3 with
    _constituent := { term := 1, leaderID := 0, leading := true } }

/-- The three-node leader after its first gain of the lead: `lead` has run on the
still empty log. -/
def firstLead3 : Agent := (leader3.lead allHold).1

/-- A freshly constructed single host agent that leads at term 1. -/
def leader1 : Agent :=
  { Agent.mk_from cfg1 with
    _constituent := { term := 1, leaderID := 0, leading := true } }

/-- A store answer under which every sub-query succeeds and the result is the
list of payloads the store has been handed. -/
def echoTrace : List Payload → List Payload → List Bool × List Payload :=
  fun t q => (q.map (fun _ => true), t)

end arangodb.consensus

/-! ## The security feature's black and white lists -/

namespace arangodb

/-- Source: `checkBlackAndWhiteList` of `V8SecurityFeature.cpp`.  A compiled
regular expression is the predicate `std::regex_search(value, re)` it
decides. -/
def checkBlackAndWhiteList (value : String) (hasWhiteList : Bool)
    (whiteList : String → Bool) (hasBlacklist : Bool) (blackList : String → Bool) : Bool :=
  if !hasWhiteList && !hasBlacklist then true
  else if !hasBlacklist then whiteList value
  else if !hasWhiteList then !blackList value
  else if whiteList value then true
  else !blackList value

/-- Source: `V8SecurityFeature::shouldExposeStartupOption`.  The members
`_startupOptionsWhiteList` and `_startupOptionsBlackList` are the strings of the
joined regular expressions; a list is configured when its string is not
empty. -/
def shouldExposeStartupOption (startupOptionsWhiteList : String)
    (startupOptionsWhiteListRegex : String → Bool)
    (startupOptionsBlackList : String)
    (startupOptionsBlackListRegex : String → Bool) (name : String) : Bool :=
  checkBlackAndWhiteList name (!startupOptionsWhiteList.isEmpty)
    startupOptionsWhiteListRegex (!startupOptionsBlackList.isEmpty)
    startupOptionsBlackListRegex

end arangodb

namespace arangodb.consensus

/-! ## Lemmas on the modelled classes -/

theorem Store.apply_trace (holds : List Payload → Payload → Bool) (s : Store)
    (batch : List Payload) : (s.apply holds batch).1.trace = s.trace ++ batch := by
  induction batch generalizing s with
  | nil => simp [Store.apply]
  | cons p ps ih => simp [Store.apply, ih]

theorem Store.apply_flags_length (holds : List Payload → Payload → Bool) (s : Store)
    (batch : List Payload) : (s.apply holds batch).2.length = batch.length := by
  induction batch generalizing s with
  | nil => simp [Store.apply]
  | cons p ps ih => simp [Store.apply, ih]

theorem foldl_count_eq (p : Nat → Bool) (l : List Nat) (n : Nat) :
    l.foldl (fun n i => n + (if p i then 1 else 0)) n = n + (l.filter p).length := by
  induction l generalizing n with
  | nil => simp
  | cons x xs ih =>
    simp only [List.foldl_cons, ih, List.filter_cons]
    by_cases hx : p x
    · simp [hx]; omega
    · simp [hx]

theorem Agent.countConfirmed_eq (a : Agent) (index : Nat) :
    a.countConfirmed index = quorumCount a.size a._confirmed index := by
  unfold Agent.countConfirmed quorumCount
  have h := foldl_count_eq (fun i => decide (a._confirmed.getD i 0 ≥ index))
    (List.range a.size) 0
  simp only [decide_eq_true_eq, Nat.zero_add] at h
  simpa using h

/-! ## C1: commit monotonicity -/

/-- C1.  A follower whose commit index is 5 receives a well-formed heartbeat of
the current term that carries leaderCommit 3: the call returns true and the
commit index afterwards is 3, below the 5 it was before. -/
theorem C1_recvAppendEntriesRPC_lowers_commit :
    follower5._last_commit_index = 5 ∧
    (follower5.recvAppendEntriesRPC 2 0 5 2 3 (Slice.array [])).2 = Outcome.returned true ∧
    (follower5.recvAppendEntriesRPC 2 0 5 2 3 (Slice.array [])).1._last_commit_index = 3 := by
  decide

/-! ## C2: reportIn -/

theorem getD_set_self (l : List Nat) (i v : Nat) (h : i < l.length) :
    (l.set i v).getD i 0 = v := by
  simp [List.getD_eq_getElem?_getD, List.getElem?_set, h]

theorem getD_set_other (l : List Nat) (i j v : Nat) (h : j ≠ i) :
    (l.set i v).getD j 0 = l.getD j 0 := by
  simp [List.getD_eq_getElem?_getD, List.getElem?_set, Ne.symm h]

/-- The confirmation vector after `reportIn(id, index)`. -/
theorem Agent.reportIn_confirmed (holds : List Payload → Payload → Bool) (a : Agent)
    (id index : Nat) :
    (a.reportIn holds id index)._confirmed =
      if index > a._confirmed.getD id 0 then a._confirmed.set id index
      else a._confirmed := by
  unfold Agent.reportIn
  by_cases h1 : index > a._confirmed.getD id 0 <;>
    by_cases h2 : index > a._last_commit_index <;>
    simp only [h1, h2, if_true, if_false] <;> split <;> rfl

/-- Commit index and read DB after `reportIn(id, index)`, in terms of the
confirmation vector after the call. -/
theorem Agent.reportIn_commit (holds : List Payload → Payload → Bool) (a : Agent)
    (id index : Nat) :
    ((a.reportIn holds id index)._last_commit_index,
        (a.reportIn holds id index)._read_db) =
      if index > a._last_commit_index ∧
          quorumCount a.size (a.reportIn holds id index)._confirmed index > a.size / 2 then
        (index, (a._read_db.apply holds
          (a._state.slices ((a._last_commit_index + 1) % UINT64) (some index))).1)
      else (a._last_commit_index, a._read_db) := by
  rw [Agent.reportIn_confirmed]
  unfold Agent.reportIn
  simp only [Agent.countConfirmed_eq]
  by_cases h1 : index > a._confirmed.getD id 0 <;>
    by_cases h2 : index > a._last_commit_index <;>
    simp only [h1, h2, if_true, if_false, Agent.size, true_and, false_and] <;>
    split <;> rfl

theorem succ_mod_UINT64 (c index : Nat) (h : c < index) (hidx : index < UINT64) :
    (c + 1) % UINT64 = c + 1 := by
  apply Nat.mod_eq_of_lt
  omega

/-- C2.  `reportIn(id, index)` for a peer id below N and an `index_t` value:
afterwards `confirmed[id]` is the maximum of its old value and `index`, every
other slot and the length of the vector are unchanged; if `index` is above the
commit index and the peers whose (updated) confirmed index is at least `index`
number strictly more than `N/2`, the commit index becomes `index` and the read
DB has been handed exactly the log range `oldCommit+1 .. index`; otherwise the
commit index and the read DB are unchanged. -/
theorem C2_reportIn (holds : List Payload → Payload → Bool) (a : Agent)
    (id index : Nat) (hid : id < a.size) (hlen : a._confirmed.length = a.size)
    (hidx : index < UINT64) :
    (a.reportIn holds id index)._confirmed.getD id 0 = max (a._confirmed.getD id 0) index ∧
    (∀ j, j ≠ id →
      (a.reportIn holds id index)._confirmed.getD j 0 = a._confirmed.getD j 0) ∧
    (a.reportIn holds id index)._confirmed.length = a._confirmed.length ∧
    ((index > a._last_commit_index ∧
        quorumCount a.size (a.reportIn holds id index)._confirmed index > a.size / 2) →
      (a.reportIn holds id index)._last_commit_index = index ∧
      (a.reportIn holds id index)._read_db.trace =
        a._read_db.trace ++ a._state.slices (a._last_commit_index + 1) (some index)) ∧
    (¬ (index > a._last_commit_index ∧
        quorumCount a.size (a.reportIn holds id index)._confirmed index > a.size / 2) →
      (a.reportIn holds id index)._last_commit_index = a._last_commit_index ∧
      (a.reportIn holds id index)._read_db = a._read_db) := by
  have hc := Agent.reportIn_commit holds a id index
  refine ⟨?_, ?_, ?_, ?_, ?_⟩
  · rw [Agent.reportIn_confirmed]
    split
    · rw [getD_set_self _ _ _ (by omega)]; omega
    · omega
  · intro j hj
    rw [Agent.reportIn_confirmed]
    split
    · exact getD_set_other _ _ _ _ hj
    · rfl
  · rw [Agent.reportIn_confirmed]
    split <;> simp
  · intro h
    rw [if_pos h, succ_mod_UINT64 _ _ h.1 hidx] at hc
    have h1 := congrArg Prod.fst hc
    have h2 := congrArg Prod.snd hc
    simp only at h1 h2
    exact ⟨h1, by rw [h2, Store.apply_trace]⟩
  · intro h
    rw [if_neg h] at hc
    exact ⟨congrArg Prod.fst hc, congrArg Prod.snd hc⟩

/-- Scenario 2 as an instance of C2: N = 3, commit index 4, `confirmed[0] = 5`;
`reportIn(1, 5)` makes the commit index 5 and hands entry 5 to the read DB. -/
theorem C2_reportIn_witness :
    (scenario2.reportIn allHold 1 5)._confirmed = [5, 5, 4] ∧
    (scenario2.reportIn allHold 1 5)._last_commit_index = 5 ∧
    (scenario2.reportIn allHold 1 5)._read_db.trace = [11, 12, 13, 14, 15] :=
  have h := C2_reportIn allHold scenario2 1 5 (by decide) (by decide) (by decide)
  ⟨by decide, (h.2.2.2.1 (by decide)).1, by rw [(h.2.2.2.1 (by decide)).2]; decide⟩

/-! ## C3: what reportIn checks before it commits -/

/-- The commit index after `reportIn(id, index)`. -/
theorem Agent.reportIn_commit_index (holds : List Payload → Payload → Bool) (a : Agent)
    (id index : Nat) :
    (a.reportIn holds id index)._last_commit_index =
      if index > a._last_commit_index ∧
          quorumCount a.size
            (if index > a._confirmed.getD id 0 then a._confirmed.set id index
             else a._confirmed) index > a.size / 2 then index
      else a._last_commit_index := by
  have h := congrArg Prod.fst (Agent.reportIn_commit holds a id index)
  rw [Agent.reportIn_confirmed] at h
  rw [apply_ite Prod.fst] at h
  exact h

/-- C3, counterexample.  A leader at term 3 holds an uncommitted entry of term
1 at index 4.  When peer 1 reports index 4 the commit index goes from 3 to 4,
although the entry at 4 was not created in the current term. -/
theorem C3_counterexample :
    oldTermLeader._last_commit_index = 3 ∧
    (oldTermLeader.reportIn allHold 1 4)._last_commit_index = 4 ∧
    (oldTermLeader.reportIn allHold 1 4)._state.termAt 4 = some 1 ∧
    (oldTermLeader.reportIn allHold 1 4).term = 3 := by
  decide

/-- C3, amended.  Every `reportIn(id, index)` call that changes the commit
index changes it to `index`, which is above the old commit index and confirmed
by strictly more than `N/2` peers; the result does not depend on the current
term or on the log, so the term of the entry at `index` is not examined. -/
theorem C3_reportIn_commits_on_quorum (holds : List Payload → Payload → Bool)
    (a : Agent) (id index : Nat)
    (h : (a.reportIn holds id index)._last_commit_index ≠ a._last_commit_index) :
    (a.reportIn holds id index)._last_commit_index = index ∧
    index > a._last_commit_index ∧
    quorumCount a.size (a.reportIn holds id index)._confirmed index > a.size / 2 ∧
    ∀ (c : Constituent) (st : State),
      ({ a with _constituent := c, _state := st }.reportIn holds id index)._last_commit_index =
        (a.reportIn holds id index)._last_commit_index := by
  have hc := Agent.reportIn_commit_index holds a id index
  refine ⟨?_, ?_, ?_, ?_⟩
  · by_cases hq : index > a._last_commit_index ∧
        quorumCount a.size
          (if index > a._confirmed.getD id 0 then a._confirmed.set id index
           else a._confirmed) index > a.size / 2
    · rw [hc, if_pos hq]
    · rw [if_neg hq] at hc
      exact absurd hc h
  · by_cases hq : index > a._last_commit_index ∧
        quorumCount a.size
          (if index > a._confirmed.getD id 0 then a._confirmed.set id index
           else a._confirmed) index > a.size / 2
    · exact hq.1
    · rw [if_neg hq] at hc
      exact absurd hc h
  · rw [Agent.reportIn_confirmed]
    by_cases hq : index > a._last_commit_index ∧
        quorumCount a.size
          (if index > a._confirmed.getD id 0 then a._confirmed.set id index
           else a._confirmed) index > a.size / 2
    · exact hq.2
    · rw [if_neg hq] at hc
      exact absurd hc h
  · intro c st
    rw [hc, Agent.reportIn_commit_index]
    rfl

/-- The amended C3 at the state of its counterexample: the commit index moves
to 4 because two of three peers have confirmed 4. -/
theorem C3_reportIn_commits_on_quorum_witness :
    (oldTermLeader.reportIn allHold 1 4)._last_commit_index = 4 ∧
    4 > oldTermLeader._last_commit_index ∧
    quorumCount oldTermLeader.size (oldTermLeader.reportIn allHold 1 4)._confirmed 4 >
      oldTermLeader.size / 2 :=
  have h := C3_reportIn_commits_on_quorum allHold oldTermLeader 1 4 (by decide)
  ⟨h.1, h.2.1, h.2.2.1⟩

/-! ## C4: the follower's commit index after an accepted call -/

/-- C4, counterexample.  A follower whose log ends at index 5 accepts a
heartbeat that carries leaderCommit 9: the log still ends at 5 and the commit
index afterwards is 9, not `min(9, 5)`. -/
theorem C4_counterexample :
    (follower5.recvAppendEntriesRPC 2 0 5 2 9 (Slice.array [])).2 = Outcome.returned true ∧
    (follower5.recvAppendEntriesRPC 2 0 5 2 9 (Slice.array [])).1._state.lastIndex = 5 ∧
    (follower5.recvAppendEntriesRPC 2 0 5 2 9 (Slice.array [])).1._last_commit_index = 9 ∧
    min 9 (follower5.recvAppendEntriesRPC 2 0 5 2 9 (Slice.array [])).1._state.lastIndex = 5 := by
  decide

/-- C4, amended.  For every accepted `recvAppendEntriesRPC` call whose
leaderCommit is at least the commit index before the call, the commit index
afterwards equals leaderCommit; it is not clamped to the last index of the
local log. -/
theorem C4_recv_commit_is_leaderCommit (a : Agent)
    (term leaderId prevIndex prevTerm leaderCommitIndex : Nat) (queries : Slice)
    (_hadv : a._last_commit_index ≤ leaderCommitIndex)
    (hacc : (a.recvAppendEntriesRPC term leaderId prevIndex prevTerm leaderCommitIndex
      queries).2 = Outcome.returned true) :
    (a.recvAppendEntriesRPC term leaderId prevIndex prevTerm leaderCommitIndex
      queries).1._last_commit_index = leaderCommitIndex := by
  cases queries with
  | other => simp [Agent.recvAppendEntriesRPC] at hacc
  | array entries =>
    unfold Agent.recvAppendEntriesRPC at hacc ⊢
    by_cases hlt : ({ a with _last_commit_index := leaderCommitIndex } : Agent).term > term
    · simp only [if_pos hlt] at hacc
      exact absurd hacc (by simp)
    · simp only [if_neg hlt]

/-- The amended C4 at the call of its counterexample. -/
theorem C4_recv_commit_is_leaderCommit_witness :
    follower5._last_commit_index ≤ 9 ∧
    (follower5.recvAppendEntriesRPC 2 0 5 2 9 (Slice.array [])).1._last_commit_index = 9 :=
  ⟨by decide,
    C4_recv_commit_is_leaderCommit follower5 2 0 5 2 9 (Slice.array []) (by decide)
      (by decide)⟩

/-! ## C6: the stale-term failure -/

/-- C6, counterexample.  A follower at term 2 receives a call of term 1 whose
body is not an array: the call returns false; it does not fail with the
stale-term error, although the local term is greater than the call's. -/
theorem C6_counterexample :
    follower5.term = 2 ∧
    (follower5.recvAppendEntriesRPC 1 0 5 2 5 Slice.other).2 = Outcome.returned false := by
  decide

/-- C6, amended.  For every call whose body is an array, the result is the
stale-term failure when the local term is greater than the call's term and the
boolean true when it is not; for every call whose body is not an array the
result is the boolean false and the agent is unchanged, whatever the terms. -/
theorem C6_recv_stale_term (a : Agent)
    (term leaderId prevIndex prevTerm leaderCommitIndex : Nat) :
    (∀ entries : List (Nat × Payload),
      (a.recvAppendEntriesRPC term leaderId prevIndex prevTerm leaderCommitIndex
          (Slice.array entries)).2 =
        if a.term > term then Outcome.thrown AgentError.LOWER_TERM_APPEND_ENTRIES_RPC
        else Outcome.returned true) ∧
    a.recvAppendEntriesRPC term leaderId prevIndex prevTerm leaderCommitIndex Slice.other =
      (a, Outcome.returned false) := by
  refine ⟨?_, rfl⟩
  intro entries
  unfold Agent.recvAppendEntriesRPC
  simp only [Agent.term]
  split <;> rfl

/-! ## C7: write -/

theorem State.fresh_map_index (term id next : Nat) (q : List Payload) :
    (State.fresh term id next q).map (fun e => e.index) = List.range' next q.length := by
  induction q generalizing next with
  | nil => simp [State.fresh]
  | cons p ps ih => simp [State.fresh, ih, List.range'_succ]

theorem State.fresh_map_entry (term id next : Nat) (q : List Payload) :
    (State.fresh term id next q).map (fun e => e.entry) = q := by
  induction q generalizing next with
  | nil => simp [State.fresh]
  | cons p ps ih => simp [State.fresh, ih]

theorem State.fresh_term (term id next : Nat) (q : List Payload) :
    ∀ e ∈ State.fresh term id next q, e.term = term ∧ e.leaderId = id := by
  induction q generalizing next with
  | nil => simp [State.fresh]
  | cons p ps ih =>
    intro e he
    simp only [State.fresh, List.mem_cons] at he
    rcases he with rfl | he
    · exact ⟨rfl, rfl⟩
    · exact ih _ e he

/-- C7.  `write(query)` on a leading agent applies the batch to the spearhead,
appends it to the log with the applied flags under the current term and the
agent's own id, and returns `(true, own id, applied, indices)` with the
spearhead's flags and the log's indices: the spearhead has been handed the
batch, and the log has grown by one entry per payload, of the current term and
own id, whose indices are the ones returned.  On an agent that is not leading
it returns `(false, leaderID)` and leaves the agent as it was. -/
theorem C7_write (holds : List Payload → Payload → Bool) (a : Agent)
    (query : List Payload) :
    (a.leading = true →
      (a.write holds query).2 =
        { accepted := true, redirect := a.id,
          applied := (a._spearhead.apply holds query).2,
          indices := (a._state.log query (a._spearhead.apply holds query).2
            a.term a.id).2 } ∧
      (a.write holds query).1._spearhead = (a._spearhead.apply holds query).1 ∧
      (a.write holds query).1._state =
        (a._state.log query (a._spearhead.apply holds query).2 a.term a.id).1 ∧
      (a.write holds query).1._spearhead.trace = a._spearhead.trace ++ query ∧
      (a.write holds query).1._last_commit_index = a._last_commit_index ∧
      (a.write holds query).1._read_db = a._read_db ∧
      ∃ es : List log_t,
        (a.write holds query).1._state._log = a._state._log ++ es ∧
        es.map (fun e => e.entry) = query ∧
        es.map (fun e => e.index) = (a.write holds query).2.indices ∧
        ∀ e ∈ es, e.term = a.term ∧ e.leaderId = a.id) ∧
    (a.leading = false →
      (a.write holds query).2 =
        { accepted := false, redirect := a.leaderID, applied := [], indices := [] } ∧
      (a.write holds query).1 = a) := by
  constructor
  · intro hl
    have hl2 : a._constituent.leading = true := hl
    unfold Agent.write
    simp only [hl2, if_true]
    refine ⟨trivial, trivial, trivial, Store.apply_trace _ _ _, trivial, trivial, ?_⟩
    refine ⟨State.fresh a.term a.id (a._state.lastIndex + 1) query, rfl, ?_, rfl, ?_⟩
    · exact State.fresh_map_entry _ _ _ _
    · exact State.fresh_term _ _ _ _
  · intro hl
    have hl2 : a._constituent.leading = false := hl
    unfold Agent.write
    simp only [hl2]
    exact ⟨rfl, rfl⟩

/-- C7 on a leader (a batch of two, both applied, indices 1 and 2) and on a
follower (redirect to peer 0, nothing changed). -/
theorem C7_write_witness :
    (leader3.write allHold [7, 8]).2 =
      { accepted := true, redirect := 0, applied := [true, true], indices := [1, 2] } ∧
    (leader3.write allHold [7, 8]).1._spearhead.trace = [7, 8] ∧
    (follower5.write allHold [7, 8]).2 =
      { accepted := false, redirect := 0, applied := [], indices := [] } ∧
    (follower5.write allHold [7, 8]).1 = follower5 :=
  have hL := (C7_write allHold leader3 [7, 8]).1 (by decide)
  have hF := (C7_write allHold follower5 [7, 8]).2 (by decide)
  ⟨by rw [hL.1]; decide, by rw [hL.2.2.2.1]; decide, hF.1, hF.2⟩

/-! ## C9 and C10: waitFor -/

theorem Agent.waitForLoop_keeps (index : Nat) (timeout : Int) (pre rest : List Wakeup)
    (hpre : ∀ p ∈ pre, p.keepsWaiting index timeout) :
    Agent.waitForLoop index timeout (pre ++ rest) = Agent.waitForLoop index timeout rest := by
  induction pre with
  | nil => rfl
  | cons p ps ih =>
    have hp := hpre p (List.mem_cons_self _ _)
    obtain ⟨h1, h2, h3⟩ := hp
    have h2n : ¬ p.elapsed > timeout := by omega
    have h3n : ¬ p.commitIndex ≥ index := by omega
    simp only [List.cons_append, Agent.waitForLoop, h1, h2n, h3n, if_false, Bool.false_eq_true]
    exact ih (fun q hq => hpre q (List.mem_cons_of_mem _ hq))

theorem Agent.waitForLoop_exit (index : Nat) (timeout : Int) (w : Wakeup)
    (rest : List Wakeup)
    (hw : w.stopping = true ∨ w.elapsed > timeout ∨ w.commitIndex ≥ index) :
    Agent.waitForLoop index timeout (w :: rest) = some (w.verdict timeout) := by
  unfold Agent.waitForLoop Wakeup.verdict
  by_cases h1 : w.stopping = true
  · simp [h1]
  · by_cases h2 : w.elapsed > timeout
    · simp [h1, h2]
    · have h3 : w.commitIndex ≥ index := by
        rcases hw with h | h | h
        · exact absurd h h1
        · exact absurd h h2
        · exact h
      simp [h1, h2, h3]

theorem Agent.waitForLoop_true (index : Nat) (timeout : Int) (ws : List Wakeup)
    (h : Agent.waitForLoop index timeout ws = some true) :
    ∃ c, Agent.commitAtLoopExit index timeout ws = some c ∧ c ≥ index := by
  induction ws with
  | nil => simp [Agent.waitForLoop] at h
  | cons w rest ih =>
    unfold Agent.waitForLoop at h
    unfold Agent.commitAtLoopExit
    by_cases h1 : w.stopping = true
    · simp [h1] at h
    · by_cases h2 : w.elapsed > timeout
      · simp [h1, h2] at h
      · by_cases h3 : w.commitIndex ≥ index
        · exact ⟨w.commitIndex, by simp [h1, h2, h3], h3⟩
        · simp only [h1, h2, h3, if_false] at h ⊢
          exact ih h

/-- C9, counterexample.  Scenario 1 on a single host agency: the leader writes
one payload, which gets index 1, and `waitFor(1, 100)` returns true while the
commit index is still 0. -/
theorem C9_counterexample :
    (leader1.write allHold [7]).1.size = 1 ∧
    (leader1.write allHold [7]).2.indices = [1] ∧
    (leader1.write allHold [7]).1.waitFor 1 100 [] = some true ∧
    (leader1.write allHold [7]).1.commitAtReturn 1 100 [] = some 0 := by
  decide

/-- C9, amended.  On an agency of more than one host, if `waitFor(k, timeout)`
returns true then the commit index found at the wake-up in which it returns is
at least `k`, for every `k` and every timeout.  A single host agency returns
true without looking at the commit index. -/
theorem C9_waitFor_true_commit (a : Agent) (k : Nat) (timeout : Int)
    (wakeups : List Wakeup) :
    (a.size ≠ 1 → a.waitFor k timeout wakeups = some true →
      ∃ c, a.commitAtReturn k timeout wakeups = some c ∧ c ≥ k) ∧
    (a.size = 1 → a.waitFor k timeout wakeups = some true) := by
  constructor
  · intro hN h
    unfold Agent.waitFor at h
    unfold Agent.commitAtReturn
    rw [if_neg hN] at h ⊢
    exact Agent.waitForLoop_true k timeout wakeups h
  · intro hN
    unfold Agent.waitFor
    rw [if_pos hN]

/-- The amended C9 on scenario 2: the waiter for index 5 is woken once with the
commit index still 4 and once more with commit index 5. -/
theorem C9_waitFor_true_commit_witness :
    scenario2.waitFor 5 100
      [{ stopping := false, elapsed := 10, commitIndex := 4 },
       { stopping := false, elapsed := 20, commitIndex := 5 }] = some true ∧
    ∃ c, scenario2.commitAtReturn 5 100
      [{ stopping := false, elapsed := 10, commitIndex := 4 },
       { stopping := false, elapsed := 20, commitIndex := 5 }] = some c ∧ c ≥ 5 :=
  ⟨by decide,
    (C9_waitFor_true_commit scenario2 5 100
      [{ stopping := false, elapsed := 10, commitIndex := 4 },
       { stopping := false, elapsed := 20, commitIndex := 5 }]).1 (by decide) (by decide)⟩

/-- C10.  With `N = 1`, `waitFor` returns true without waiting.  Otherwise, given
the wake-ups of the waiting thread, it returns at the first wake-up at which
the agent is stopping, or the elapsed time exceeds the timeout, or the commit
index has reached `index`; the value is false if the agent is stopping, else
false if the deadline has passed, else true.  At every earlier wake-up it goes
back to waiting, and it is still waiting when no wake-up so far meets one of the
three conditions. -/
theorem C10_waitFor (a : Agent) (index : Nat) (timeout : Int) :
    (a.size = 1 → ∀ ws : List Wakeup, a.waitFor index timeout ws = some true) ∧
    (a.size ≠ 1 →
      (∀ (pre : List Wakeup) (w : Wakeup) (rest : List Wakeup),
        (∀ p ∈ pre, p.stopping = false ∧ p.elapsed ≤ timeout ∧ p.commitIndex < index) →
        (w.stopping = true ∨ w.elapsed > timeout ∨ w.commitIndex ≥ index) →
        a.waitFor index timeout (pre ++ w :: rest) =
          some (if w.stopping then false else if w.elapsed > timeout then false else true)) ∧
      (∀ ws : List Wakeup,
        (∀ p ∈ ws, p.stopping = false ∧ p.elapsed ≤ timeout ∧ p.commitIndex < index) →
        a.waitFor index timeout ws = none)) := by
  refine ⟨?_, ?_⟩
  · intro hN ws
    unfold Agent.waitFor
    rw [if_pos hN]
  · intro hN
    refine ⟨?_, ?_⟩
    · intro pre w rest hpre hw
      unfold Agent.waitFor
      rw [if_neg hN, Agent.waitForLoop_keeps index timeout pre (w :: rest) hpre,
        Agent.waitForLoop_exit index timeout w rest hw]
      rfl
    · intro ws hws
      unfold Agent.waitFor
      rw [if_neg hN]
      have h := Agent.waitForLoop_keeps index timeout ws [] hws
      rw [List.append_nil] at h
      rw [h]
      rfl

/-- C10 on three inputs: a single host returns true with no wake-up; on three
hosts a waiter for index 5 with timeout 100 goes back to waiting at commit index
4 and then gets false at a wake-up after the deadline, although the commit index
has reached 5 by then; a waiter woken only at commit index 4 is still
waiting. -/
theorem C10_waitFor_witness :
    leader1.waitFor 5 100 [] = some true ∧
    scenario2.waitFor 5 100
      ([{ stopping := false, elapsed := 10, commitIndex := 4 }] ++
        { stopping := false, elapsed := 101, commitIndex := 5 } :: []) = some false ∧
    scenario2.waitFor 5 100 [{ stopping := false, elapsed := 10, commitIndex := 4 }] = none :=
  have h := C10_waitFor scenario2 5 100
  ⟨(C10_waitFor leader1 5 100).1 (by decide) [],
    (h.2 (by decide)).1 [{ stopping := false, elapsed := 10, commitIndex := 4 }]
      { stopping := false, elapsed := 101, commitIndex := 5 } [] (by decide) (by decide),
    (h.2 (by decide)).2 [{ stopping := false, elapsed := 10, commitIndex := 4 }]
      (by decide)⟩

/-! ## C8: the leader confirms itself -/

theorem lastAppliedIndex_snoc (A : List Bool) (B : List Nat) (x : Bool) (y : Nat)
    (h : A.length = B.length) :
    lastAppliedIndex (A ++ [x]) (B ++ [y]) =
      if x then some y else lastAppliedIndex A B := by
  unfold lastAppliedIndex
  rw [List.zip_append h]
  cases x <;> simp [List.filter_append]

theorem Agent.confirmSelf_steps (id : Nat) (applied : List Bool) (indices conf : List Nat)
    (hlen : applied.length = indices.length) (n : Nat) (hn : n ≤ applied.length) :
    (List.range n).foldl
        (fun c i => if applied.getD i false then c.set id (indices.getD i 0) else c) conf =
      match lastAppliedIndex (applied.take n) (indices.take n) with
      | some v => conf.set id v
      | none => conf := by
  induction n with
  | zero => simp [lastAppliedIndex]
  | succ n ih =>
    have hn1 : n < applied.length := by omega
    have hn2 : n < indices.length := by omega
    have ih2 := ih (by omega)
    rw [List.range_succ, List.foldl_append, ih2]
    have ha : applied.take (n + 1) = applied.take n ++ [applied[n]] := by
      rw [List.take_succ, List.getElem?_eq_getElem hn1]; rfl
    have hi : indices.take (n + 1) = indices.take n ++ [indices[n]] := by
      rw [List.take_succ, List.getElem?_eq_getElem hn2]; rfl
    have hl : (applied.take n).length = (indices.take n).length := by
      simp [List.length_take]; omega
    rw [ha, hi, lastAppliedIndex_snoc _ _ _ _ hl]
    have ga : applied.getD n false = applied[n] := by
      simp [List.getD_eq_getElem?_getD, List.getElem?_eq_getElem hn1]
    have gi : indices.getD n 0 = indices[n] := by
      simp [List.getD_eq_getElem?_getD, List.getElem?_eq_getElem hn2]
    simp only [List.foldl_cons, List.foldl_nil, ga, gi]
    cases hx : applied[n]
    · simp
    · cases hm : lastAppliedIndex (applied.take n) (indices.take n) <;> simp [List.set_set]

theorem Agent.confirmSelf_eq (id : Nat) (applied : List Bool) (indices conf : List Nat)
    (hlen : applied.length = indices.length) :
    Agent.confirmSelf id applied indices conf =
      match lastAppliedIndex applied indices with
      | some v => conf.set id v
      | none => conf := by
  have h := Agent.confirmSelf_steps id applied indices conf hlen applied.length (Nat.le_refl _)
  rw [List.take_length] at h
  have h2 : indices.take applied.length = indices := by
    rw [hlen, List.take_length]
  rw [h2] at h
  exact h

theorem lastAppliedIndex_of_last (applied : List Bool) (indices : List Nat) (ik : Nat)
    (hlen : applied.length = indices.length)
    (ha : applied.getLast? = some true) (hi : indices.getLast? = some ik) :
    lastAppliedIndex applied indices = some ik := by
  obtain ⟨A, rfl⟩ := List.getLast?_eq_some_iff.mp ha
  obtain ⟨B, rfl⟩ := List.getLast?_eq_some_iff.mp hi
  have hl : A.length = B.length := by
    simp only [List.length_append, List.length_singleton] at hlen
    omega
  rw [lastAppliedIndex_snoc A B true ik hl]
  rfl

theorem Agent.write_lengths (holds : List Payload → Payload → Bool) (a : Agent)
    (query : List Payload) (hl : a.leading = true) :
    (a.write holds query).2.applied.length = (a.write holds query).2.indices.length := by
  have hl2 : a._constituent.leading = true := hl
  unfold Agent.write
  simp only [hl2, if_true, State.log, List.length_map]
  rw [Store.apply_flags_length, ← List.length_map (State.fresh _ _ _ _) (fun e => e.index),
    State.fresh_map_index, List.length_range']

theorem Agent.write_confirmed (holds : List Payload → Payload → Bool) (a : Agent)
    (query : List Payload) (hl : a.leading = true) :
    (a.write holds query).1._confirmed =
      match lastAppliedIndex (a.write holds query).2.applied
          (a.write holds query).2.indices with
      | some v => a._confirmed.set a.id v
      | none => a._confirmed := by
  have hlen := Agent.write_lengths holds a query hl
  have hl2 : a._constituent.leading = true := hl
  unfold Agent.write at hlen ⊢
  simp only [hl2, if_true] at hlen ⊢
  exact Agent.confirmSelf_eq _ _ _ _ hlen

/-- C8, counterexample.  The leader writes the batch `[7, 0]` to a store that
rejects payload 0.  Both payloads are assigned an index, 1 and 2, and
`confirmed[self]` afterwards is 1, not the highest index appended. -/
theorem C8_counterexample :
    leader3.leading = true ∧
    (leader3.write zeroFails [7, 0]).2 =
      { accepted := true, redirect := 0, applied := [true, false], indices := [1, 2] } ∧
    (leader3.write zeroFails [7, 0]).1._state.lastIndex = 2 ∧
    (leader3.write zeroFails [7, 0]).1._confirmed.getD leader3.id 0 = 1 := by
  decide

/-- C8, amended.  For every accepted write on a leader whose id is a slot of
the confirmation vector, `confirmed[self]` afterwards equals the index assigned
to the last payload of the batch whose applied flag is true, and is unchanged
when no payload of the batch was applied; the other slots are unchanged.  In
particular it equals `i_k`, the highest index appended, when the last payload
of the batch was applied. -/
theorem C8_write_confirms_last_applied (holds : List Payload → Payload → Bool)
    (a : Agent) (query : List Payload) (hl : a.leading = true)
    (hid : a.id < a._confirmed.length) :
    (a.write holds query).1._confirmed.getD a.id 0 =
      (lastAppliedIndex (a.write holds query).2.applied
        (a.write holds query).2.indices).getD (a._confirmed.getD a.id 0) ∧
    (∀ j, j ≠ a.id →
      (a.write holds query).1._confirmed.getD j 0 = a._confirmed.getD j 0) ∧
    (∀ ik, (a.write holds query).2.applied.getLast? = some true →
      (a.write holds query).2.indices.getLast? = some ik →
      (a.write holds query).1._confirmed.getD a.id 0 = ik) := by
  have hc := Agent.write_confirmed holds a query hl
  have hlen := Agent.write_lengths holds a query hl
  refine ⟨?_, ?_, ?_⟩
  · rw [hc]
    cases lastAppliedIndex (a.write holds query).2.applied (a.write holds query).2.indices with
    | none => rfl
    | some v => simp only [Option.getD_some]; exact getD_set_self _ _ _ hid
  · intro j hj
    rw [hc]
    cases lastAppliedIndex (a.write holds query).2.applied (a.write holds query).2.indices with
    | none => rfl
    | some v => exact getD_set_other _ _ _ _ hj
  · intro ik ha hi
    rw [hc, lastAppliedIndex_of_last _ _ ik hlen ha hi]
    exact getD_set_self _ _ _ hid

/-- The amended C8 at the write of its counterexample: the last applied payload
is the first of the batch, so `confirmed[self]` is its index, 1. -/
theorem C8_write_confirms_last_applied_witness :
    lastAppliedIndex (leader3.write zeroFails [7, 0]).2.applied
      (leader3.write zeroFails [7, 0]).2.indices = some 1 ∧
    (leader3.write zeroFails [7, 0]).1._confirmed.getD leader3.id 0 = 1 :=
  have h := C8_write_confirms_last_applied zeroFails leader3 [7, 0] (by decide) (by decide)
  ⟨by decide, by rw [h.1]; decide⟩

/-! ## C5: the read-DB invariant -/

theorem contig_mem (l : List log_t) (k : Nat)
    (hk : l.map (fun e => e.index) = List.range' k l.length) :
    ∀ e ∈ l, k ≤ e.index := by
  intro e he
  have h : e.index ∈ l.map (fun e => e.index) := List.mem_map_of_mem _ he
  rw [hk] at h
  exact (List.mem_range'_1.mp h).1

theorem State.fresh_mem_index (term id next : Nat) (q : List Payload) :
    ∀ e ∈ State.fresh term id next q, next ≤ e.index := by
  intro e he
  have h : e.index ∈ (State.fresh term id next q).map (fun e => e.index) :=
    List.mem_map_of_mem _ he
  rw [State.fresh_map_index] at h
  exact (List.mem_range'_1.mp h).1

theorem State.lastIndex_of_contiguous (st : State) (h : st.contiguous) :
    st.lastIndex = st._log.length := by
  unfold State.contiguous at h
  have h1 := congrArg List.getLast? h
  rw [List.getLast?_map, List.getLast?_range'] at h1
  unfold State.lastIndex
  cases hl : st._log.getLast? with
  | none =>
    rw [hl] at h1
    by_cases h0 : st._log.length = 0
    · simp [h0]
    · simp [h0] at h1
  | some e =>
    rw [hl] at h1
    by_cases h0 : st._log.length = 0
    · simp [h0] at h1
    · simp [h0] at h1
      simp only [h1]

theorem filter_range_split (l : List log_t) (k s c t : Nat)
    (hk : l.map (fun e => e.index) = List.range' k l.length) (hs : s ≤ k) (hct : c ≤ t) :
    l.filter (fun e => decide (s ≤ e.index) && decide (e.index ≤ c)) ++
      l.filter (fun e => decide (c + 1 ≤ e.index) && decide (e.index ≤ t)) =
    l.filter (fun e => decide (s ≤ e.index) && decide (e.index ≤ t)) := by
  induction l generalizing k with
  | nil => rfl
  | cons e es ih =>
    have hmem := contig_mem (e :: es) k hk
    simp only [List.map_cons, List.length_cons, List.range'_succ, List.cons.injEq] at hk
    obtain ⟨he, hes⟩ := hk
    by_cases hc : e.index ≤ c
    · have ih2 := ih (k + 1) hes (by omega)
      have p1 : (decide (s ≤ e.index) && decide (e.index ≤ c)) = true := by
        simp; omega
      have p2 : (decide (c + 1 ≤ e.index) && decide (e.index ≤ t)) = false := by
        simp; omega
      have p3 : (decide (s ≤ e.index) && decide (e.index ≤ t)) = true := by
        simp; omega
      simp only [List.filter_cons, p1, p2, p3, if_true, Bool.false_eq_true, if_false,
        List.cons_append, ih2]
    · have e1 : (e :: es).filter (fun e => decide (s ≤ e.index) && decide (e.index ≤ c)) = [] := by
        rw [List.filter_eq_nil_iff]
        intro x hx
        have := hmem x hx
        simp; omega
      rw [e1, List.nil_append]
      apply List.filter_congr
      intro x hx
      have := hmem x hx
      have q1 : decide (c + 1 ≤ x.index) = true := by simp; omega
      have q2 : decide (s ≤ x.index) = true := by simp; omega
      rw [q1, q2]

theorem State.slices_split (st : State) (c t : Nat) (h : st.contiguous) (hct : c ≤ t) :
    st.slices 1 (some c) ++ st.slices (c + 1) (some t) = st.slices 1 (some t) := by
  unfold State.slices
  rw [← List.map_append]
  exact congrArg _ (filter_range_split st._log 1 1 c t h (Nat.le_refl _) hct)

theorem Agent.reportIn_state (holds : List Payload → Payload → Bool) (a : Agent)
    (id index : Nat) : (a.reportIn holds id index)._state = a._state := by
  unfold Agent.reportIn
  by_cases h1 : index > a._confirmed.getD id 0 <;>
    by_cases h2 : index > a._last_commit_index <;>
    simp only [h1, h2, if_true, if_false] <;> split <;> rfl

theorem Agent.readDbInv_fresh (config : config_t) : (Agent.mk_from config).readDbInv := by
  refine ⟨?_, ?_, ?_⟩
  · simp [State.contiguous, Agent.mk_from]
  · simp [Agent.mk_from]
  · simp [Agent.mk_from, State.slices]

theorem Agent.readDbInv_write (holds : List Payload → Payload → Bool) (a : Agent)
    (query : List Payload) (h : a.readDbInv) : (a.write holds query).1.readDbInv := by
  obtain ⟨hc, hle, htr⟩ := h
  have hlast := State.lastIndex_of_contiguous a._state hc
  by_cases hl : a._constituent.leading = true
  · have hlog : (a.write holds query).1._state._log =
        a._state._log ++ State.fresh a.term a.id (a._state.lastIndex + 1) query := by
      unfold Agent.write
      simp only [hl, if_true, State.log]
    have hci : (a.write holds query).1._last_commit_index = a._last_commit_index := by
      unfold Agent.write
      simp only [hl, if_true]
    have hrd : (a.write holds query).1._read_db = a._read_db := by
      unfold Agent.write
      simp only [hl, if_true]
    have hc2 : (a.write holds query).1._state.contiguous := by
      unfold State.contiguous at hc ⊢
      rw [hlog, List.map_append, State.fresh_map_index, hc, hlast, List.length_append,
        ← List.length_map (State.fresh _ _ _ _) (fun e => e.index), State.fresh_map_index,
        List.length_range', Nat.add_comm a._state._log.length 1]
      have := List.range'_append 1 a._state._log.length query.length 1
      simp only [Nat.one_mul] at this
      rw [this, Nat.add_comm]
    refine ⟨hc2, ?_, ?_⟩
    · rw [State.lastIndex_of_contiguous _ hc2, hci, hlog, List.length_append]
      omega
    · rw [hci, hrd, htr]
      unfold State.slices
      rw [hlog, List.filter_append]
      have e1 : (State.fresh a.term a.id (a._state.lastIndex + 1) query).filter
          (fun e => decide (1 ≤ e.index) &&
            (match some a._last_commit_index with
             | some t => decide (e.index ≤ t)
             | none => true)) = [] := by
        rw [List.filter_eq_nil_iff]
        intro x hx
        have := State.fresh_mem_index _ _ _ _ x hx
        simp
        omega
      rw [e1, List.append_nil]
  · have hw : (a.write holds query).1 = a := by
      unfold Agent.write
      simp only [hl]
      rfl
    rw [hw]
    exact ⟨hc, hle, htr⟩

theorem Agent.readDbInv_reportIn (holds : List Payload → Payload → Bool) (a : Agent)
    (id index : Nat) (h : a.readDbInv) (hidx : index ≤ a._state.lastIndex)
    (hw : index < UINT64) : (a.reportIn holds id index).readDbInv := by
  obtain ⟨hc, hle, htr⟩ := h
  have hp := Agent.reportIn_commit holds a id index
  have hst := Agent.reportIn_state holds a id index
  unfold Agent.readDbInv
  rw [hst]
  by_cases hq : index > a._last_commit_index ∧
      quorumCount a.size (a.reportIn holds id index)._confirmed index > a.size / 2
  · rw [if_pos hq, succ_mod_UINT64 _ _ hq.1 hw] at hp
    have h1 := congrArg Prod.fst hp
    have h2 := congrArg Prod.snd hp
    simp only at h1 h2
    refine ⟨hc, by omega, ?_⟩
    rw [h1, h2, Store.apply_trace, htr]
    exact State.slices_split a._state _ _ hc (by omega)
  · rw [if_neg hq] at hp
    have h1 := congrArg Prod.fst hp
    have h2 := congrArg Prod.snd hp
    simp only at h1 h2
    rw [h1, h2]
    exact ⟨hc, hle, htr⟩

theorem State.slices_of_empty (st : State) (h : st._log = []) (start : Nat)
    (stop : Option Nat) : st.slices start stop = [] := by
  simp [State.slices, h]

theorem Agent.readDbInv_gain (holds : List Payload → Payload → Bool) (a : Agent)
    (c : Constituent) (h : a.readDbInv) (hlog : a._state._log = []) :
    ({ a with _constituent := c }.lead holds).1.readDbInv := by
  obtain ⟨hc, hle, htr⟩ := h
  refine ⟨hc, hle, ?_⟩
  show (a._read_db.apply holds (a._state.slices 0 none)).1.trace =
    a._state.slices 1 (some a._last_commit_index)
  rw [Store.apply_trace, State.slices_of_empty a._state hlog 0 none, List.append_nil]
  exact htr

theorem Agent.readDbInv_load (holds : List Payload → Payload → Bool) (a : Agent)
    (persisted : Option (List log_t)) (h : a.readDbInv) (hlog : a._state._log = [])
    (hp : persisted = none ∨ persisted = some []) :
    (a.load holds persisted).1.readDbInv := by
  obtain ⟨hc, hle, htr⟩ := h
  have hst : (a.load holds persisted).1._state = a._state := by
    rcases hp with rfl | rfl
    · rfl
    · show ({ _log := [] } : State) = a._state
      rw [← hlog]
  have hrd : (a.load holds persisted).1._read_db.trace =
      a._read_db.trace ++ (a.load holds persisted).1._state.slices 0 none := by
    simp only [Agent.load, Store.apply_trace]
  rw [hst, State.slices_of_empty a._state hlog 0 none, List.append_nil] at hrd
  unfold Agent.readDbInv
  rw [hst, hrd]
  exact ⟨hc, hle, htr⟩

theorem LeaderPath.readDbInv (holds : List Payload → Payload → Bool) (a : Agent)
    (h : LeaderPath holds a) : a.readDbInv := by
  induction h with
  | fresh config => exact Agent.readDbInv_fresh config
  | load a persisted _ hlog hp ih => exact Agent.readDbInv_load holds a persisted ih hlog hp
  | gain a c _ _ hlog ih => exact Agent.readDbInv_gain holds a c ih hlog
  | change a c _ _ ih => exact ih
  | write a query _ ih => exact Agent.readDbInv_write holds a query ih
  | reportIn a id index _ hidx hw ih => exact Agent.readDbInv_reportIn holds a id index ih hidx hw

/-- C5, counterexample.  Four reachable states in which the read DB has not
been handed exactly the log range `1 .. commitIndex`.  A freshly constructed
agent loads a durable log of five entries: all five payloads are handed to the
read DB at commit index 0.  A leader that has written one payload gains the
lead again and `lead` hands that payload to the read DB at commit index 0.  A
freshly constructed follower accepts one entry with leaderCommit 1: the commit
index is 1 and the read DB has been handed nothing.  On a leader whose log ends
at index 1, peers 1 and 2 report index 2: the commit index becomes 2, and after
the next write the entry at index 2 is below the commit index but was never
handed to the read DB. -/
theorem C5_counterexample :
    ((Agent.load allHold (Agent.mk_from cfg3) (some log5)).1._last_commit_index = 0 ∧
      (Agent.load allHold (Agent.mk_from cfg3) (some log5)).1._read_db.trace =
        [11, 12, 13, 14, 15] ∧
      (Agent.load allHold (Agent.mk_from cfg3) (some log5)).1._state.slices 1 (some 0) = []) ∧
    (((firstLead3.write allHold [7]).1.lead allHold).1._last_commit_index = 0 ∧
      ((firstLead3.write allHold [7]).1.lead allHold).1._read_db.trace = [7] ∧
      ((firstLead3.write allHold [7]).1.lead allHold).1._state.slices 1 (some 0) = []) ∧
    (((Agent.mk_from cfg3).recvAppendEntriesRPC 1 1 0 0 1 (Slice.array [(1, 7)])).2 =
        Outcome.returned true ∧
      ((Agent.mk_from cfg3).recvAppendEntriesRPC 1 1 0 0 1
        (Slice.array [(1, 7)])).1._last_commit_index = 1 ∧
      ((Agent.mk_from cfg3).recvAppendEntriesRPC 1 1 0 0 1
        (Slice.array [(1, 7)])).1._read_db.trace = [] ∧
      ((Agent.mk_from cfg3).recvAppendEntriesRPC 1 1 0 0 1
        (Slice.array [(1, 7)])).1._state.slices 1 (some 1) = [7]) ∧
    ((firstLead3.write allHold [7]).1._state.lastIndex = 1 ∧
      (((((firstLead3.write allHold [7]).1.reportIn allHold 1 2).reportIn allHold 2 2).write
        allHold [8]).1)._last_commit_index = 2 ∧
      (((((firstLead3.write allHold [7]).1.reportIn allHold 1 2).reportIn allHold 2 2).write
        allHold [8]).1)._read_db.trace = [7] ∧
      (((((firstLead3.write allHold [7]).1.reportIn allHold 1 2).reportIn allHold 2 2).write
        allHold [8]).1)._state.slices 1 (some 2) = [7, 8]) := by
  decide

/-- C5, amended.  In every state reachable from a freshly constructed agent
through `load` and gains of the lead (which run `lead`/`rebuildDBs`) while the
log is still empty, changes of the constituent that are not a gain of the
lead, `write`, and `reportIn` calls that report an index the log holds, the
payloads handed to the read DB are exactly those of the log range
`1 .. commitIndex`, in log order, where the log's indices are contiguous from 1
and the commit index does not exceed the last index.  From such a state, as
from any other, `lead`/`rebuildDBs` and `load` hand the whole log to the read
DB and leave the commit index as it is. -/
theorem C5_read_db_on_leader_path (holds : List Payload → Payload → Bool) (a : Agent)
    (h : LeaderPath holds a) :
    a._read_db.trace = a._state.slices 1 (some a._last_commit_index) ∧
    a._state.contiguous ∧
    a._last_commit_index ≤ a._state.lastIndex ∧
    (a.lead holds).1._read_db.trace = a._read_db.trace ++ a._state.slices 0 none ∧
    (a.lead holds).1._last_commit_index = a._last_commit_index ∧
    ∀ persisted : Option (List log_t),
      (a.load holds persisted).1._read_db.trace =
        a._read_db.trace ++ (a.load holds persisted).1._state.slices 0 none ∧
      (a.load holds persisted).1._last_commit_index = a._last_commit_index := by
  obtain ⟨hc, hle, htr⟩ := LeaderPath.readDbInv holds a h
  refine ⟨htr, hc, hle, ?_, rfl, ?_⟩
  · simp only [Agent.lead, Agent.rebuildDBs, Store.apply_trace]
  · intro persisted
    refine ⟨?_, rfl⟩
    simp only [Agent.load, Store.apply_trace]

/-- The amended C5 on the three-node agency: the fresh agent loads an empty
durable log, gains the lead, writes two payloads, and peer 1 reports index 2.
The commit index is 2 and the read DB has been handed both payloads. -/
theorem C5_read_db_on_leader_path_witness :
    (((({ (Agent.load allHold (Agent.mk_from cfg3) (some [])).1 with
          _constituent := { term := 1, leaderID := 0, leading := true } }.lead
        allHold).1.write allHold [7, 8]).1.reportIn allHold 1 2)._last_commit_index = 2) ∧
    (((({ (Agent.load allHold (Agent.mk_from cfg3) (some [])).1 with
          _constituent := { term := 1, leaderID := 0, leading := true } }.lead
        allHold).1.write allHold [7, 8]).1.reportIn allHold 1 2)._read_db.trace = [7, 8]) :=
  have h := C5_read_db_on_leader_path allHold
    ((({ (Agent.load allHold (Agent.mk_from cfg3) (some [])).1 with
          _constituent := { term := 1, leaderID := 0, leading := true } }.lead
        allHold).1.write allHold [7, 8]).1.reportIn allHold 1 2)
    (LeaderPath.reportIn _ 1 2
      (LeaderPath.write _ [7, 8]
        (LeaderPath.gain _ _
          (LeaderPath.load _ (some []) (LeaderPath.fresh cfg3) rfl (Or.inr rfl))
          rfl rfl))
      (by decide) (by decide))
  ⟨by decide, by rw [h.1]; decide⟩

/-! ## The commit index under the other operations -/

/-- `reportIn` never lowers the commit index; `write`, `lead`/`rebuildDBs` and
`load` leave it as it is. -/
theorem Agent.commit_index_elsewhere (holds : List Payload → Payload → Bool) (a : Agent) :
    (∀ id index, a._last_commit_index ≤ (a.reportIn holds id index)._last_commit_index) ∧
    (∀ query, (a.write holds query).1._last_commit_index = a._last_commit_index) ∧
    (a.lead holds).1._last_commit_index = a._last_commit_index ∧
    (a.rebuildDBs holds).1._last_commit_index = a._last_commit_index ∧
    ∀ persisted, (a.load holds persisted).1._last_commit_index = a._last_commit_index := by
  refine ⟨?_, ?_, rfl, rfl, fun _ => rfl⟩
  · intro id index
    rw [Agent.reportIn_commit_index]
    by_cases hq : index > a._last_commit_index ∧
        quorumCount a.size
          (if index > a._confirmed.getD id 0 then a._confirmed.set id index
           else a._confirmed) index > a.size / 2
    · rw [if_pos hq]
      exact Nat.le_of_lt hq.1
    · rw [if_neg hq]
  · intro query
    unfold Agent.write
    split <;> rfl

/-! ## C11: read -/

/-- C11.  `read(query)` on a leading agent returns `(true, leaderID, flags,
results)` with the flags and results of the spearhead when `N = 1` and of the
read DB otherwise, the other store playing no part; on an agent that is not
leading it returns the redirect `(false, leaderID)` whatever the stores hold
and whatever they would answer.  The agent, and so the commit index, the
confirmation vector and the log, is the same after the call as before. -/
theorem C11_read (answer : List Payload → List Payload → List Bool × List Payload)
    (a : Agent) (query : List Payload) :
    (a.leading = true → a.size = 1 →
      (a.read answer query).2 =
        { accepted := true, redirect := a.leaderID,
          success := (a._spearhead.read answer query).1,
          result := some (a._spearhead.read answer query).2 } ∧
      ∀ rd : Store, ({ a with _read_db := rd }.read answer query).2 =
        (a.read answer query).2) ∧
    (a.leading = true → a.size ≠ 1 →
      (a.read answer query).2 =
        { accepted := true, redirect := a.leaderID,
          success := (a._read_db.read answer query).1,
          result := some (a._read_db.read answer query).2 } ∧
      ∀ sp : Store, ({ a with _spearhead := sp }.read answer query).2 =
        (a.read answer query).2) ∧
    (a.leading = false →
      (a.read answer query).2 =
        { accepted := false, redirect := a.leaderID, success := [], result := none } ∧
      ∀ (sp rd : Store) (other : List Payload → List Payload → List Bool × List Payload),
        ({ a with _spearhead := sp, _read_db := rd }.read other query).2 =
          (a.read answer query).2) ∧
    (a.read answer query).1 = a := by
  refine ⟨?_, ?_, ?_, ?_⟩
  · intro hl hN
    have hl2 : a._constituent.leading = true := hl
    have hN2 : a._config.size = 1 := hN
    refine ⟨?_, ?_⟩
    · simp only [Agent.read, hl2, hN2, if_true]
      rfl
    · intro rd
      simp only [Agent.read, hl2, hN2, if_true]
  · intro hl hN
    have hl2 : a._constituent.leading = true := hl
    have hN2 : ¬ a._config.size = 1 := hN
    refine ⟨?_, ?_⟩
    · simp only [Agent.read, hl2, hN2, if_true, if_false]
      rfl
    · intro sp
      simp only [Agent.read, hl2, hN2, if_true, if_false]
  · intro hl
    have hl2 : a._constituent.leading = false := hl
    refine ⟨?_, ?_⟩
    · simp only [Agent.read, hl2]
      rfl
    · intro sp rd other
      simp only [Agent.read, hl2]
      rfl
  · unfold Agent.read
    split <;> rfl

/-- C11 on three agents: a single host leader whose spearhead holds a payload
the read DB does not, the three-node leader of scenario 2, and a follower. -/
theorem C11_read_witness :
    ((leader1.write allHold [7]).1.read echoTrace [1]).2 =
      { accepted := true, redirect := 0, success := [true], result := some [7] } ∧
    (scenario2.read echoTrace [1]).2 =
      { accepted := true, redirect := 0, success := [true],
        result := some [11, 12, 13, 14] } ∧
    (follower5.read echoTrace [1]).2 =
      { accepted := false, redirect := 0, success := [], result := none } ∧
    (follower5.read echoTrace [1]).1 = follower5 :=
  have h1 := ((C11_read echoTrace (leader1.write allHold [7]).1 [1]).1
    (by decide) (by decide)).1
  have h2 := ((C11_read echoTrace scenario2 [1]).2.1 (by decide) (by decide)).1
  have h3 := C11_read echoTrace follower5 [1]
  ⟨by rw [h1]; decide, by rw [h2]; decide, (h3.2.2.1 (by decide)).1, h3.2.2.2⟩

/-! ## C12: the replication loop -/

/-- `beginShutdown` makes no call on `_rest_cv`. -/
theorem Agent.beginShutdown_rest_cv (a : Agent) :
    a.beginShutdown.signals.count Signal.rest_cv_broadcast =
      a.signals.count Signal.rest_cv_broadcast := by
  simp [Agent.beginShutdown, List.count_append]

/-- C13.  `beginShutdown` on the leader of scenario 2: the agent is stopping,
the signals emitted are the three shutdown requests to the parts and one
broadcast on `_cv`; none is a broadcast on `_rest_cv`, so a thread blocked in
`waitFor(6, 100)` gets no wake-up from the shutdown and stays blocked. -/
theorem C13_beginShutdown_no_rest_cv_broadcast :
    scenario2.beginShutdown.stopping = true ∧
    scenario2.beginShutdown.signals =
      [Signal.constituent_beginShutdown, Signal.spearhead_beginShutdown,
       Signal.read_db_beginShutdown, Signal.cv_broadcast] ∧
    scenario2.beginShutdown.signals.count Signal.rest_cv_broadcast = 0 ∧
    scenario2.beginShutdown.waitFor 6 100 [] = none := by
  decide

/-! ## C15: a rejected append-entries call -/

/-- C15.  A follower at term 2 with commit index 5 receives a call of term 1
that carries leaderCommit 9: the call fails with the stale-term error, the log
and both stores are as before, and the commit index is 9. -/
theorem C15_stale_call_moves_commit :
    follower5._last_commit_index = 5 ∧
    (follower5.recvAppendEntriesRPC 1 0 5 2 9 (Slice.array [])).2 =
      Outcome.thrown AgentError.LOWER_TERM_APPEND_ENTRIES_RPC ∧
    (follower5.recvAppendEntriesRPC 1 0 5 2 9 (Slice.array [])).1._last_commit_index = 9 ∧
    (follower5.recvAppendEntriesRPC 1 0 5 2 9 (Slice.array [])).1._state = follower5._state ∧
    (follower5.recvAppendEntriesRPC 1 0 5 2 9 (Slice.array [])).1._read_db =
      follower5._read_db ∧
    (follower5.recvAppendEntriesRPC 1 0 5 2 9 (Slice.array [])).1._spearhead =
      follower5._spearhead := by
  decide

/-! ## C14: the quorum invariant -/

theorem getD_set_le (l : List Nat) (id v : Nat) (h : l.getD id 0 ≤ v) :
    ∀ i, l.getD i 0 ≤ (l.set id v).getD i 0 := by
  intro i
  by_cases hi : i = id
  · subst hi
    by_cases hlt : i < l.length
    · rw [getD_set_self l i v hlt]
      exact h
    · rw [List.set_eq_of_length_le (by omega)]
  · rw [getD_set_other l id i v hi]

theorem getD_set_self_le (l : List Nat) (id v bound : Nat) (h1 : l.getD id 0 ≤ bound)
    (h2 : v ≤ bound) : (l.set id v).getD id 0 ≤ bound := by
  by_cases hlt : id < l.length
  · rw [getD_set_self l id v hlt]
    exact h2
  · rw [List.set_eq_of_length_le (by omega)]
    exact h1

theorem quorumCount_mono (N : Nat) (c d : List Nat) (k : Nat)
    (h : ∀ i, c.getD i 0 ≤ d.getD i 0) : quorumCount N c k ≤ quorumCount N d k := by
  unfold quorumCount
  rw [← List.countP_eq_length_filter, ← List.countP_eq_length_filter]
  apply List.countP_mono_left
  intro i _ hi
  have := h i
  simp only [decide_eq_true_eq] at hi ⊢
  omega

theorem lastAppliedIndex_mem (applied : List Bool) (indices : List Nat) (v : Nat)
    (h : lastAppliedIndex applied indices = some v) : v ∈ indices := by
  unfold lastAppliedIndex at h
  have hm := List.mem_of_getLast?_eq_some h
  rw [List.mem_map] at hm
  obtain ⟨p, hp, rfl⟩ := hm
  have hz := (List.mem_filter.mp hp).1
  exact (List.of_mem_zip hz).2

theorem Agent.write_leading_facts (holds : List Payload → Payload → Bool) (a : Agent)
    (query : List Payload) (hc : a._state.contiguous) (hl : a.leading = true) :
    (a.write holds query).1._config = a._config ∧
    (a.write holds query).1._last_commit_index = a._last_commit_index ∧
    (a.write holds query).1._state.contiguous ∧
    (a.write holds query).1._state.lastIndex = a._state.lastIndex + query.length ∧
    (a.write holds query).2.indices = List.range' (a._state.lastIndex + 1) query.length := by
  have hl2 : a._constituent.leading = true := hl
  have hlast := State.lastIndex_of_contiguous a._state hc
  have hlog : (a.write holds query).1._state._log =
      a._state._log ++ State.fresh a.term a.id (a._state.lastIndex + 1) query := by
    unfold Agent.write
    simp only [hl2, if_true, State.log]
  have hflen : (State.fresh a.term a.id (a._state.lastIndex + 1) query).length =
      query.length := by
    rw [← List.length_map (State.fresh _ _ _ _) (fun e => e.index), State.fresh_map_index,
      List.length_range']
  have hc2 : (a.write holds query).1._state.contiguous := by
    unfold State.contiguous at hc ⊢
    rw [hlog, List.map_append, State.fresh_map_index, hc, List.length_append, hflen, hlast,
      Nat.add_comm a._state._log.length 1]
    have := List.range'_append 1 a._state._log.length query.length 1
    simp only [Nat.one_mul] at this
    rw [this, Nat.add_comm]
  refine ⟨?_, ?_, hc2, ?_, ?_⟩
  · unfold Agent.write
    simp only [hl2, if_true]
  · unfold Agent.write
    simp only [hl2, if_true]
  · rw [State.lastIndex_of_contiguous _ hc2, hlog, List.length_append, hflen, hlast]
  · unfold Agent.write
    simp only [hl2, if_true, State.log]
    exact State.fresh_map_index _ _ _ _

theorem Agent.reportIn_config (holds : List Payload → Payload → Bool) (a : Agent)
    (id index : Nat) : (a.reportIn holds id index)._config = a._config := by
  unfold Agent.reportIn
  by_cases h1 : index > a._confirmed.getD id 0 <;>
    by_cases h2 : index > a._last_commit_index <;>
    simp only [h1, h2, if_true, if_false] <;> split <;> rfl

theorem Agent.quorumInv_write (holds : List Payload → Payload → Bool) (a : Agent)
    (query : List Payload) (hinv : a.quorumInv) (hl : a.leading = true) :
    (a.write holds query).1.quorumInv ∧
    (a.write holds query).1._config = a._config ∧
    ∀ i, a._confirmed.getD i 0 ≤ (a.write holds query).1._confirmed.getD i 0 := by
  obtain ⟨hc, hself, hq⟩ := hinv
  obtain ⟨hcfg, hci, hc2, hlast2, hidx⟩ := Agent.write_leading_facts holds a query hc hl
  have hconf := Agent.write_confirmed holds a query hl
  have hboth : (∀ i, a._confirmed.getD i 0 ≤ (a.write holds query).1._confirmed.getD i 0) ∧
      (a.write holds query).1._confirmed.getD a.id 0 ≤ a._state.lastIndex + query.length := by
    cases hm : lastAppliedIndex (a.write holds query).2.applied
        (a.write holds query).2.indices with
    | none =>
      rw [hm] at hconf
      simp only at hconf
      rw [hconf]
      exact ⟨fun i => Nat.le_refl _, by omega⟩
    | some v =>
      have hv := lastAppliedIndex_mem _ _ v hm
      rw [hidx, List.mem_range'_1] at hv
      rw [hm] at hconf
      simp only at hconf
      rw [hconf]
      exact ⟨getD_set_le _ _ _ (by omega), getD_set_self_le _ _ _ _ (by omega) (by omega)⟩
  refine ⟨⟨hc2, ?_, ?_⟩, hcfg, hboth.1⟩
  · simp only [Agent.id, hcfg, hlast2]
    exact hboth.2
  · intro hN
    simp only [Agent.size, hcfg, hci] at hN ⊢
    have := hq hN
    have := quorumCount_mono a._config.size _ _ a._last_commit_index hboth.1
    simp only [Agent.size] at *
    omega

theorem Agent.quorumInv_reportIn (holds : List Payload → Payload → Bool) (a : Agent)
    (id index : Nat) (hinv : a.quorumInv)
    (hor : id ≠ a.id ∨ index ≤ a._state.lastIndex) :
    (a.reportIn holds id index).quorumInv ∧
    (a.reportIn holds id index)._config = a._config ∧
    ∀ i, a._confirmed.getD i 0 ≤ (a.reportIn holds id index)._confirmed.getD i 0 := by
  obtain ⟨hc, hself, hq⟩ := hinv
  have hcfg := Agent.reportIn_config holds a id index
  have hst := Agent.reportIn_state holds a id index
  have hci := Agent.reportIn_commit_index holds a id index
  have hconf := Agent.reportIn_confirmed holds a id index
  have hboth : (∀ i, a._confirmed.getD i 0 ≤ (a.reportIn holds id index)._confirmed.getD i 0) ∧
      (a.reportIn holds id index)._confirmed.getD a.id 0 ≤ a._state.lastIndex := by
    rw [hconf]
    by_cases h1 : index > a._confirmed.getD id 0
    · rw [if_pos h1]
      refine ⟨getD_set_le _ _ _ (by omega), ?_⟩
      by_cases hid : a.id = id
      · subst hid
        rcases hor with h | h
        · exact absurd rfl h
        · exact getD_set_self_le _ _ _ _ hself h
      · rw [getD_set_other _ _ _ _ hid]
        exact hself
    · rw [if_neg h1]
      exact ⟨fun i => Nat.le_refl _, hself⟩
  refine ⟨⟨by rw [hst]; exact hc, ?_, ?_⟩, hcfg, hboth.1⟩
  · simp only [Agent.id, hcfg, hst]
    exact hboth.2
  · intro hN
    simp only [Agent.size, hcfg] at hN ⊢
    rw [← hconf] at hci
    by_cases hadv : index > a._last_commit_index ∧
        quorumCount a.size (a.reportIn holds id index)._confirmed index > a.size / 2
    · rw [if_pos hadv] at hci
      rw [hci]
      exact hadv.2
    · rw [if_neg hadv] at hci
      rw [hci]
      have := hq hN
      have := quorumCount_mono a._config.size _ _ a._last_commit_index hboth.1
      simp only [Agent.size] at *
      omega

theorem Agent.quorumInv_fresh (config : config_t) : (Agent.mk_from config).quorumInv := by
  refine ⟨?_, ?_, ?_⟩
  · simp [State.contiguous, Agent.mk_from]
  · simp [Agent.mk_from, Agent.id, List.getD_eq_getElem?_getD, List.getElem?_replicate]
    split <;> simp
  · intro hN
    have hall : quorumCount (Agent.mk_from config).size (Agent.mk_from config)._confirmed
        (Agent.mk_from config)._last_commit_index = (Agent.mk_from config).size := by
      unfold quorumCount
      have : (List.range (Agent.mk_from config).size).filter
          (fun i => decide ((Agent.mk_from config)._confirmed.getD i 0 ≥
            (Agent.mk_from config)._last_commit_index)) =
          List.range (Agent.mk_from config).size := by
        rw [List.filter_eq_self]
        intro i _
        simp [Agent.mk_from]
      rw [this, List.length_range]
    rw [hall]
    omega

theorem QuorumPath.inv (holds : List Payload → Payload → Bool) (config : config_t)
    (a : Agent) (h : QuorumPath holds config a) : a.quorumInv ∧ a._config = config := by
  induction h with
  | init => exact ⟨Agent.quorumInv_fresh config, rfl⟩
  | step a b _ hs ih =>
    cases hs with
    | elect c => exact ⟨ih.1, ih.2⟩
    | write query hl =>
      have h := Agent.quorumInv_write holds a query ih.1 hl
      exact ⟨h.1, h.2.1.trans ih.2⟩
    | reportIn id index _ hor =>
      have h := Agent.quorumInv_reportIn holds a id index ih.1 hor
      exact ⟨h.1, h.2.1.trans ih.2⟩

/-- C14, counterexample.  On the freshly elected leader of a three-node agency
(peer 0, empty log) peers 0 and 1 are reported at index 5, so the commit index
becomes 5; then an accepted write is assigned index 1.  `confirmed[0]` goes
from 5 down to 1 and only one of three peers has confirmed the commit index. -/
theorem C14_counterexample :
    ((leader3.reportIn allHold 0 5).reportIn allHold 1 5)._last_commit_index = 5 ∧
    ((leader3.reportIn allHold 0 5).reportIn allHold 1 5)._confirmed = [5, 5, 0] ∧
    (((leader3.reportIn allHold 0 5).reportIn allHold 1 5).write allHold [7]).2 =
      { accepted := true, redirect := 0, applied := [true], indices := [1] } ∧
    (((leader3.reportIn allHold 0 5).reportIn allHold 1 5).write allHold [7]).1._confirmed =
      [1, 5, 0] ∧
    (((leader3.reportIn allHold 0 5).reportIn allHold 1 5).write allHold
      [7]).1._last_commit_index = 5 ∧
    quorumCount 3 (((leader3.reportIn allHold 0 5).reportIn allHold 1 5).write allHold
      [7]).1._confirmed 5 = 1 ∧
    3 / 2 = 1 := by
  decide

/-- C14, amended.  Start from the freshly constructed agent of a configuration
whose own id is below `N`, and apply any sequence of elections, accepted writes
and `reportIn(id, index)` calls with `id < N` that come from another peer or
report an index the log holds.  In every state so reached strictly more than
`N/2` peers have a confirmed index of at least the commit index, and no further
such step lowers any `confirmed[i]`. -/
theorem C14_quorum_on_leader_path (holds : List Payload → Payload → Bool)
    (config : config_t) (a : Agent) (hcfg : config.id < config.size)
    (h : QuorumPath holds config a) :
    quorumCount a.size a._confirmed a._last_commit_index > a.size / 2 ∧
    ∀ b, QuorumStep holds a b → ∀ i, a._confirmed.getD i 0 ≤ b._confirmed.getD i 0 := by
  obtain ⟨hinv, hc⟩ := QuorumPath.inv holds config a h
  refine ⟨?_, ?_⟩
  · apply hinv.2.2
    simp only [Agent.size, hc]
    omega
  · intro b hs
    cases hs with
    | elect c => exact fun i => Nat.le_refl _
    | write query hl => exact (Agent.quorumInv_write holds a query hinv hl).2.2
    | reportIn id index _ hor => exact (Agent.quorumInv_reportIn holds a id index hinv hor).2.2

/-- The amended C14 after a write of two payloads on the fresh three-node leader
and the report of index 2 by peer 1: the commit index is 2 and peers 0 and 1
have confirmed it. -/
theorem C14_quorum_on_leader_path_witness :
    cfg3.id < cfg3.size ∧
    ((leader3.write allHold [7, 8]).1.reportIn allHold 1 2)._last_commit_index = 2 ∧
    quorumCount 3 ((leader3.write allHold [7, 8]).1.reportIn allHold 1 2)._confirmed 2 >
      3 / 2 :=
  have h := C14_quorum_on_leader_path allHold cfg3
    ((leader3.write allHold [7, 8]).1.reportIn allHold 1 2) (by decide)
    (QuorumPath.step _ _
      (QuorumPath.step _ _
        (QuorumPath.step _ _ QuorumPath.init (QuorumStep.elect _ _))
        (QuorumStep.write leader3 [7, 8] (by decide)))
      (QuorumStep.reportIn _ 1 2 (by decide) (Or.inl (by decide))))
  ⟨by decide, by decide, h.1⟩

end arangodb.consensus

/-! ## C16: the decision table of the black and white lists -/

namespace arangodb

/-- C16.  `checkBlackAndWhiteList` with the two searches as predicates: true when
neither list is configured; the white list's verdict when only the white list
is; the negation of the black list's verdict when only the black list is; and
white-listed or not black-listed when both are.  Equivalently a value is denied
exactly when a black list is configured and matches and the value is not
white-listed by a configured white list, or only a white list is configured and
it does not match.  `shouldExposeStartupOption` is this table with a list
configured when the string of its joined regular expression is not empty. -/
theorem C16_checkBlackAndWhiteList (value : String) (hasWhiteList hasBlacklist : Bool)
    (inW inB : String → Bool) :
    (hasWhiteList = false → hasBlacklist = false →
      checkBlackAndWhiteList value hasWhiteList inW hasBlacklist inB = true) ∧
    (hasWhiteList = true → hasBlacklist = false →
      checkBlackAndWhiteList value hasWhiteList inW hasBlacklist inB = inW value) ∧
    (hasWhiteList = false → hasBlacklist = true →
      checkBlackAndWhiteList value hasWhiteList inW hasBlacklist inB = !inB value) ∧
    (hasWhiteList = true → hasBlacklist = true →
      checkBlackAndWhiteList value hasWhiteList inW hasBlacklist inB =
        (inW value || !inB value)) ∧
    (checkBlackAndWhiteList value hasWhiteList inW hasBlacklist inB = false ↔
      (hasBlacklist = true ∧ inB value = true ∧
          ¬ (hasWhiteList = true ∧ inW value = true)) ∨
        (hasWhiteList = true ∧ hasBlacklist = false ∧ inW value = false)) ∧
    ∀ (whites blacks : String),
      shouldExposeStartupOption whites inW blacks inB value =
        checkBlackAndWhiteList value (!whites.isEmpty) inW (!blacks.isEmpty) inB := by
  refine ⟨?_, ?_, ?_, ?_, ?_, fun _ _ => rfl⟩
  · intro h1 h2
    simp [checkBlackAndWhiteList, h1, h2]
  · intro h1 h2
    simp [checkBlackAndWhiteList, h1, h2]
  · intro h1 h2
    simp [checkBlackAndWhiteList, h1, h2]
  · intro h1 h2
    cases hw : inW value <;> simp [checkBlackAndWhiteList, h1, h2, hw]
  · cases hasWhiteList <;> cases hasBlacklist <;> cases hw : inW value <;>
      cases hb : inB value <;> simp [checkBlackAndWhiteList, hw, hb]

end arangodb
